import Mathlib

/-!
Shallow embedding of the dependency pre-bundling optimizer found in
packages/vite/src/node/optimizer/optimizer.ts.

JavaScript objects used as string-keyed maps are embedded as association
lists (List (String × _)): lookup returns the first binding, assignment
overwrites an existing binding in place or appends a new one at the end,
matching the property insertion-order semantics of JS objects.  Promises
are embedded as numeric barrier tokens: resolving a promise moves its
token into a resolved-token list.  A TypeScript access that can throw a
TypeError on an undefined intermediate value (a lookup without a presence
check) is embedded as an Option-valued computation where none means the
exception path is taken.
-/

namespace ViteOptimizer

/-- One record per dependency, mirroring OptimizedDepInfo: id, file,
resolved src, browserHash, fileHash, needsInterop, the processing promise
(as a barrier token) and whether exportsData was attached.  Optional
TypeScript fields become Option. -/
structure OptimizedDepInfo where
  id : String
  file : String
  src : Option String
  browserHash : Option String
  fileHash : Option String
  needsInterop : Option Bool
  processing : Option Nat
  exportsData : Bool
deriving DecidableEq, Repr

/-- The metadata snapshot, mirroring DepOptimizationMetadata: a config
hash, a browser hash and the three sub-maps optimized, chunks and
discovered, each keyed by dependency id. -/
structure DepOptimizationMetadata where
  hash : String
  browserHash : String
  optimized : List (String × OptimizedDepInfo)
  chunks : List (String × OptimizedDepInfo)
  discovered : List (String × OptimizedDepInfo)
deriving DecidableEq, Repr

/-- JS object property read: m[k], the first binding for k. -/
def alookup (m : List (String × OptimizedDepInfo)) (k : String) :
    Option OptimizedDepInfo :=
  match m with
  | [] => none
  | (k', v) :: rest => if k' = k then some v else alookup rest k

/-- JS object property write: m[k] = v overwrites an existing binding in
place, otherwise appends the new binding at the end. -/
def aset (m : List (String × OptimizedDepInfo)) (k : String)
    (v : OptimizedDepInfo) : List (String × OptimizedDepInfo) :=
  match m with
  | [] => [(k, v)]
  | (k', v') :: rest =>
      if k' = k then (k, v) :: rest else (k', v') :: aset rest k v

/-- JS truthiness choice a || b on two possibly-undefined object values. -/
def jsOr (a b : Option OptimizedDepInfo) : Option OptimizedDepInfo :=
  match a with
  | some x => some x
  | none => b

/-- Lines 252-266 of runOptimizer: the ids collected into
needsInteropMismatch, iterating metadata.discovered in order and keeping
dep when newData.optimized[dep] exists, the discovered needsInterop is
defined and the two needsInterop values disagree. -/
def needsInteropMismatch (metadata newData : DepOptimizationMetadata) :
    List String :=
  metadata.discovered.filterMap (fun p =>
    match alookup newData.optimized p.1 with
    | none => none
    | some depInfo =>
        if p.2.needsInterop.isSome ∧ depInfo.needsInterop ≠ p.2.needsInterop
        then some p.1 else none)

/-- Lines 275-279 of runOptimizer: Object.keys(metadata.optimized).some
over the fileHash comparison.  The access newData.optimized[dep].fileHash
has no presence check, so a missing binding aborts the whole computation
(none); the .some callback short-circuits on the first differing entry. -/
def fileHashesChanged (opt : List (String × OptimizedDepInfo))
    (newData : DepOptimizationMetadata) : Option Bool :=
  match opt with
  | [] => some false
  | (dep, info) :: rest =>
      match alookup newData.optimized dep with
      | none => none
      | some ndInfo =>
          if info.fileHash ≠ ndInfo.fileHash then some true
          else fileHashesChanged rest newData

/-- Lines 272-279 of runOptimizer: needsReload, a left-to-right
short-circuit disjunction; none means the computation threw and the catch
block takes over. -/
def computeNeedsReload (metadata newData : DepOptimizationMetadata) :
    Option Bool :=
  if needsInteropMismatch metadata newData ≠ [] then some true
  else if metadata.hash ≠ newData.hash then some true
  else fileHashesChanged metadata.optimized newData

/-- Lines 286-290 of commitProcessing: for each id still in
metadata.discovered, if newData.optimized[id] is absent, insert the old
discovered entry into newData.discovered (a JS for-in loop, embedded as a
left-to-right recursion over the old discovered list with the growing
newData.discovered as accumulator). -/
def carryOverDiscovered (newData : DepOptimizationMetadata)
    (acc : List (String × OptimizedDepInfo)) :
    List (String × OptimizedDepInfo) → List (String × OptimizedDepInfo)
  | [] => acc
  | p :: rest =>
      carryOverDiscovered newData
        (if (alookup newData.optimized p.1).isSome then acc
         else aset acc p.1 p.2) rest

/-- Lines 298-302 of commitProcessing: rewrite the browserHash of every
newData.optimized entry to (metadata.optimized[dep] ||
metadata.discovered[dep]).browserHash.  The || falls through JS-style and
the final .browserHash read has no presence check, so a dep present in
neither old sub-map aborts with none. -/
def overwriteOptimizedBrowserHashes (metadata : DepOptimizationMetadata) :
    List (String × OptimizedDepInfo) →
    Option (List (String × OptimizedDepInfo))
  | [] => some []
  | (dep, info) :: rest =>
      match jsOr (alookup metadata.optimized dep)
          (alookup metadata.discovered dep) with
      | none => none
      | some old =>
          match overwriteOptimizedBrowserHashes metadata rest with
          | none => none
          | some rest' =>
              some ((dep, { info with browserHash := old.browserHash })
                :: rest')

/-- Lines 281-329, commitProcessing, as the snapshot that becomes the new
_metadata (the commit() filesystem effect and the log lines are external;
the mutation of entries of the superseded old snapshot on lines 308-317
only affects aliases of the old snapshot and not the committed one, since
the ids it touches are exactly those absent from the carried-over
discovered map).  none means the browserHash rewrite threw. -/
def commitProcessing (metadata newData : DepOptimizationMetadata)
    (needsReload : Bool) : Option DepOptimizationMetadata :=
  let discovered' := carryOverDiscovered newData newData.discovered
    metadata.discovered
  if needsReload then
    some { newData with discovered := discovered' }
  else
    match overwriteOptimizedBrowserHashes metadata newData.optimized with
    | none => none
    | some optimized' =>
        some { newData with
          browserHash := metadata.browserHash
          chunks := newData.chunks.map (fun p =>
            (p.1, { p.2 with browserHash := some metadata.browserHash }))
          optimized := optimized'
          discovered := discovered' }

/-- Modelled from the spec: deterministic_path(id, ssr_flag), the output
path of getOptimizedDepPath (defined in the optimizer barrel module, not
part of this file); only determinism in id and ssr matters here. -/
def getOptimizedDepPath (id : String) (ssr : Bool) : String :=
  (if ssr then "deps_ssr/" else "deps/") ++ id ++ ".js"

/-- Modelled from the spec: the content hash function getHash (defined in
utils, not part of this file); an injective stand-in since no claim
depends on hash collisions. -/
def getHash (s : String) : String := s

/-- Modelled from the spec: depsFromOptimizedDepInfo (defined in the
optimizer barrel module, not part of this file), serializing a dep
sub-map to the id-to-src record fed into the browser-hash input. -/
def depsFromOptimizedDepInfo
    (depsInfo : List (String × OptimizedDepInfo)) : String :=
  String.intercalate ","
    (depsInfo.map (fun p => p.1 ++ ":" ++ (p.2.src.getD "")))

/-- Lines 427-435: getDiscoveredBrowserHash, hashing the metadata hash,
the serialized known and missing dep sets and the session timestamp. -/
def getDiscoveredBrowserHash (hash deps missing sessionTimestamp : String) :
    String :=
  getHash (hash ++ deps ++ missing ++ sessionTimestamp)

/-- The optimizer's mutable closure state, restricted to what the control
loop reads and writes: the committed snapshot _metadata, the
newDepsDiscovered flag, the promise queue (depOptimizationProcessingQueue
as barrier tokens), the current depOptimizationProcessing token, a fresh
token supply, the resolved tokens, the currentlyProcessing and
firstRunCalled flags, the enqueuedRerun slot, whether a debounce timer is
pending, the scan mode and the session timestamp. -/
structure OptimizerState where
  metadata : DepOptimizationMetadata
  newDepsDiscovered : Bool
  processingQueue : List Nat
  processingToken : Nat
  nextToken : Nat
  resolvedTokens : List Nat
  currentlyProcessing : Bool
  firstRunCalled : Bool
  enqueuedRerun : Bool
  handlePending : Bool
  scan : Bool
  sessionTimestamp : String
deriving DecidableEq, Repr

/-- Lines 503-517: the synchronous part of debouncedProcessing — clear
the enqueued-rerun slot, cancel pending timers and arm a fresh one (the
timer body runs later on the event loop and is modelled separately). -/
def debouncedProcessing (st : OptimizerState) : OptimizerState :=
  { st with enqueuedRerun := false, handlePending := true }

/-- Lines 437-501: registerMissingImport.  Returns the entry for id and
the successor state: a hit in optimized, chunks or discovered returns the
existing entry with no state change (the error logs on lines 442-451 are
external); a miss creates the discovered entry, sets newDepsDiscovered
and, when scanning or after the first run, arms the debounced scheduler.
addOptimizedDepInfo is modelled from the spec as insertion into the named
sub-map (its definition lives in the optimizer barrel module). -/
def registerMissingImport (st : OptimizerState) (id resolved : String)
    (ssr : Bool) : OptimizedDepInfo × OptimizerState :=
  let metadata := st.metadata
  match alookup metadata.optimized id with
  | some optimized => (optimized, st)
  | none =>
    match alookup metadata.chunks id with
    | some chunk => (chunk, st)
    | none =>
      match alookup metadata.discovered id with
      | some missing => (missing, st)
      | none =>
        let missing : OptimizedDepInfo :=
          { id := id
            file := getOptimizedDepPath id ssr
            src := some resolved
            browserHash := some (getDiscoveredBrowserHash metadata.hash
              (depsFromOptimizedDepInfo metadata.optimized)
              (depsFromOptimizedDepInfo metadata.discovered)
              st.sessionTimestamp)
            fileHash := none
            needsInterop := none
            processing := some st.processingToken
            exportsData := true }
        let st1 := { st with
          metadata := { metadata with
            discovered := aset metadata.discovered id missing }
          newDepsDiscovered := true }
        let st2 := if st1.scan || st1.firstRunCalled
          then debouncedProcessing st1 else st1
        (missing, st2)

/-- Externally visible effects of one rerun: processingResult.commit(),
processingResult.cancel() and the server full-reload broadcast. -/
inductive RunEvent where
  | commit
  | cancel
  | fullReload
deriving DecidableEq, Repr

/-- Lines 387-396 plus line 398: the catch block of runOptimizer — drain
the promise queue into the resolved tokens, clear metadata.discovered to
force rediscovery, leave the rest of the snapshot in place, and clear
currentlyProcessing. -/
def catchPathState (st : OptimizerState) : OptimizerState :=
  { st with
    resolvedTokens := st.resolvedTokens ++ st.processingQueue
    processingQueue := []
    metadata := { st.metadata with discovered := [] }
    currentlyProcessing := false }

/-- The registerMissingImport calls that interleave at the bundler await
point, applied in order (the single-threaded event loop admits no other
mutation of the rerun's state during the await). -/
def applyRegistrations (st : OptimizerState) :
    List (String × String × Bool) → OptimizerState
  | [] => st
  | (id, resolved, ssr) :: rest =>
      applyRegistrations (registerMissingImport st id resolved ssr).2 rest

/-- Lines 194-246 on the non-empty path: the state after runOptimizer's
synchronous prefix — the run flags set, the debounce timer cancelled,
the current barrier pushed onto the queue and a fresh barrier allocated
for deps discovered from this point on. -/
def rerunPrefixState (st0 : OptimizerState) : OptimizerState :=
  { st0 with
    firstRunCalled := true
    enqueuedRerun := false
    handlePending := false
    currentlyProcessing := true
    newDepsDiscovered := false
    processingQueue := st0.processingQueue ++ [st0.processingToken]
    processingToken := st0.nextToken
    nextToken := st0.nextToken + 1 }

/-- Lines 194-401: one execution of runOptimizer.  The bundler is
external: outcome is none when runOptimizeDeps throws and some newData
when it returns, and midCalls are the registerMissingImport calls served
while the bundler ran.  Early return when discovered is empty; otherwise
push the current barrier, allocate a fresh one, apply the interleaved
registrations, then branch on needsReload exactly as lines 331-386: a
thrown needsReload computation or browserHash rewrite reaches the catch
block, needsReload with newDepsDiscovered cancels, and the two commit
branches swap the snapshot, drain the queue and (on reload) broadcast. -/
def runOptimizerModel (st0 : OptimizerState)
    (midCalls : List (String × String × Bool))
    (outcome : Option DepOptimizationMetadata) :
    OptimizerState × List RunEvent :=
  let st := { st0 with
    firstRunCalled := true, enqueuedRerun := false, handlePending := false }
  if st.metadata.discovered = [] then
    ({ st with currentlyProcessing := false }, [])
  else
    let stMid := applyRegistrations (rerunPrefixState st0) midCalls
    match outcome with
    | none => (catchPathState stMid, [])
    | some newData =>
      match computeNeedsReload stMid.metadata newData with
      | none => (catchPathState stMid, [])
      | some needsReload =>
        if needsReload = false then
          match commitProcessing stMid.metadata newData false with
          | none => (catchPathState stMid, [RunEvent.commit])
          | some newMeta =>
              ({ stMid with
                metadata := newMeta
                resolvedTokens := stMid.resolvedTokens ++
                  stMid.processingQueue
                processingQueue := []
                currentlyProcessing := false }, [RunEvent.commit])
        else if stMid.newDepsDiscovered then
          ({ stMid with currentlyProcessing := false }, [RunEvent.cancel])
        else
          match commitProcessing stMid.metadata newData true with
          | none => (catchPathState stMid, [RunEvent.commit])
          | some newMeta =>
              ({ stMid with
                metadata := newMeta
                resolvedTokens := stMid.resolvedTokens ++
                  stMid.processingQueue
                processingQueue := []
                currentlyProcessing := false },
               [RunEvent.commit, RunEvent.fullReload])

/-- Modelled from the spec: isOptimizedDepFile (defined in the optimizer
barrel module, not part of this file), a pure predicate on the cache path
shape. -/
def isOptimizedDepFile (id : String) : Bool :=
  String.startsWith id "/node_modules/.vite/deps/"

/-- The idle-tracker closure state of lines 521-525 plus the
optimizeDepsEntriesVisited flag of line 128: the LIFO stack of registered
(id, done-token) pairs, the seen ids, the workers sources, the id
currently being waited on and the two one-shot flags. -/
structure IdleState where
  registeredIds : List (String × Nat)
  seenIds : List String
  workersSources : List String
  waitingOn : Option String
  firstRunEnsured : Bool
  optimizeDepsEntriesVisited : Bool
deriving DecidableEq, Repr

/-- Lines 572-598: the synchronous part of runOptimizerWhenIdle — when no
id is being waited on, pop the most recently registered entry off the
stack and start waiting on its id (the awaited done promise and the
afterLoad continuation run later on the event loop). -/
def runOptimizerWhenIdle (st : IdleState) : IdleState :=
  match st.waitingOn with
  | some _ => st
  | none =>
    match st.registeredIds.getLast? with
    | none => st
    | some next =>
        { st with
          registeredIds := st.registeredIds.dropLast
          waitingOn := some next.1 }

/-- Lines 560-570: delayDepsOptimizerUntil — ignore ids that are
optimized-dep files or already seen, otherwise record the id as seen,
push (id, done) onto the stack and try to start waiting; then mark the
optimizeDeps entries as visited (the preTransform call itself is
external). -/
def delayDepsOptimizerUntil (st : IdleState) (id : String) (done : Nat)
    (server : Bool) : IdleState :=
  let st1 :=
    if ¬isOptimizedDepFile id ∧ id ∉ st.seenIds then
      runOptimizerWhenIdle { st with
        seenIds := id :: st.seenIds
        registeredIds := st.registeredIds ++ [(id, done)] }
    else st
  if server ∧ ¬st1.optimizeDepsEntriesVisited then
    { st1 with optimizeDepsEntriesVisited := true }
  else st1

/-- Lines 70-76: the metadata query of the depsOptimizer record — the
main snapshot for builds or non-SSR queries, the SSR slot otherwise.  The
SSR slot is Option because the TypeScript variable is declared without an
initializer. -/
def metadataQuery (isBuild : Bool) (meta : DepOptimizationMetadata)
    (ssrSlot : Option DepOptimizationMetadata) (ssr : Bool) :
    Option DepOptimizationMetadata :=
  if isBuild || !ssr then some meta else ssrSlot

/-- Lines 65-94: the only assignment of ssrServerDepsMetadata happens
when not building and config.ssr is set; ssrMeta stands for the result of
optimizeServerSsrDeps. -/
def initSsrSlot (isBuild configSsr : Bool)
    (ssrMeta : DepOptimizationMetadata) :
    Option DepOptimizationMetadata :=
  if !isBuild && configSsr then some ssrMeta else none

/-- A concrete empty snapshot used by witnesses. -/
def emptyMeta : DepOptimizationMetadata :=
  { hash := "h", browserHash := "b",
    optimized := [], chunks := [], discovered := [] }

theorem alookup_aset_self (m : List (String × OptimizedDepInfo))
    (k : String) (v : OptimizedDepInfo) : alookup (aset m k v) k = some v := by
  induction m with
  | nil => simp [aset, alookup]
  | cons p rest ih =>
      by_cases h : p.1 = k
      · simp [aset, alookup, h]
      · simpa [aset, alookup, h] using ih

theorem alookup_aset_other (m : List (String × OptimizedDepInfo))
    (k k' : String) (v : OptimizedDepInfo) (h : k' ≠ k) :
    alookup (aset m k v) k' = alookup m k' := by
  induction m with
  | nil => simp [aset, alookup, Ne.symm h]
  | cons p rest ih =>
      by_cases hp : p.1 = k
      · have h2 : ¬p.1 = k' := by rw [hp]; exact Ne.symm h
        simp [aset, if_pos hp, alookup, Ne.symm h, h2]
      · simp only [aset, if_neg hp, alookup]
        by_cases hp' : p.1 = k'
        · simp [hp']
        · simp [hp', ih]

theorem needsInteropMismatch_ne_nil_iff (m nd : DepOptimizationMetadata) :
    needsInteropMismatch m nd ≠ [] ↔
      ∃ p ∈ m.discovered, ∃ ndI, alookup nd.optimized p.1 = some ndI ∧
        p.2.needsInterop ≠ none ∧ ndI.needsInterop ≠ p.2.needsInterop := by
  unfold needsInteropMismatch
  rw [Ne, List.filterMap_eq_nil_iff]
  push_neg
  constructor
  · rintro ⟨p, hp, hf⟩
    refine ⟨p, hp, ?_⟩
    cases hnd : alookup nd.optimized p.1 with
    | none => simp [hnd] at hf
    | some ndI =>
        refine ⟨ndI, rfl, ?_⟩
        simp only [hnd] at hf
        by_cases hc : p.2.needsInterop.isSome ∧
            ndI.needsInterop ≠ p.2.needsInterop
        · exact ⟨Option.ne_none_iff_isSome.2 hc.1, hc.2⟩
        · simp [if_neg hc] at hf
  · rintro ⟨p, hp, ndI, hnd, hdef, hne⟩
    refine ⟨p, hp, ?_⟩
    simp only [hnd]
    rw [if_pos ⟨Option.ne_none_iff_isSome.1 hdef, hne⟩]
    simp

theorem fileHashesChanged_false (opt : List (String × OptimizedDepInfo))
    (nd : DepOptimizationMetadata)
    (h : fileHashesChanged opt nd = some false) :
    ∀ p ∈ opt, ∃ ndI, alookup nd.optimized p.1 = some ndI ∧
      p.2.fileHash = ndI.fileHash := by
  induction opt with
  | nil => intro p hp; exact absurd hp (List.not_mem_nil p)
  | cons q rest ih =>
      intro p hp
      unfold fileHashesChanged at h
      cases hnd : alookup nd.optimized q.1 with
      | none => simp [hnd] at h
      | some ndI =>
          simp only [hnd] at h
          by_cases hc : q.2.fileHash ≠ ndI.fileHash
          · simp [if_pos hc] at h
          · rw [if_neg hc] at h
            rcases List.mem_cons.1 hp with hpq | hprest
            · subst hpq
              exact ⟨ndI, hnd, not_ne_iff.1 hc⟩
            · exact ih h p hprest

theorem fileHashesChanged_true (opt : List (String × OptimizedDepInfo))
    (nd : DepOptimizationMetadata)
    (h : fileHashesChanged opt nd = some true) :
    ∃ p ∈ opt, ∃ ndI, alookup nd.optimized p.1 = some ndI ∧
      p.2.fileHash ≠ ndI.fileHash := by
  induction opt with
  | nil => simp [fileHashesChanged] at h
  | cons q rest ih =>
      unfold fileHashesChanged at h
      cases hnd : alookup nd.optimized q.1 with
      | none => simp [hnd] at h
      | some ndI =>
          simp only [hnd] at h
          by_cases hc : q.2.fileHash ≠ ndI.fileHash
          · exact ⟨q, List.mem_cons_self q rest, ndI, hnd, hc⟩
          · rw [if_neg hc] at h
            rcases ih h with ⟨p, hp, w⟩
            exact ⟨p, List.mem_cons_of_mem q hp, w⟩

/-- C1: for every rerun in which the bundler returns a new metadata
object and the needsReload computation completes, needsReload is true if
and only if the interop-mismatch set is non-empty, or the old and new
metadata hashes differ, or some id of the old optimized map has a
different fileHash in the new optimized map. -/
theorem needsReload_iff_spec (m nd : DepOptimizationMetadata) (b : Bool)
    (h : computeNeedsReload m nd = some b) :
    b = true ↔
      ((∃ p ∈ m.discovered, ∃ ndI, alookup nd.optimized p.1 = some ndI ∧
          p.2.needsInterop ≠ none ∧ ndI.needsInterop ≠ p.2.needsInterop)
        ∨ m.hash ≠ nd.hash
        ∨ (∃ p ∈ m.optimized, ∃ ndI, alookup nd.optimized p.1 = some ndI ∧
          p.2.fileHash ≠ ndI.fileHash)) := by
  unfold computeNeedsReload at h
  by_cases hmm : needsInteropMismatch m nd ≠ []
  · rw [if_pos hmm] at h
    cases h
    simp only [true_iff]
    exact Or.inl ((needsInteropMismatch_ne_nil_iff m nd).1 hmm)
  · rw [if_neg hmm] at h
    by_cases hh : m.hash ≠ nd.hash
    · rw [if_pos hh] at h
      cases h
      simp only [true_iff]
      exact Or.inr (Or.inl hh)
    · rw [if_neg hh] at h
      cases b with
      | true =>
          simp only [true_iff]
          exact Or.inr (Or.inr (fileHashesChanged_true m.optimized nd h))
      | false =>
          simp only [Bool.false_eq_true, false_iff]
          rintro (hint | hhash | ⟨p, hp, ndI, hnd, hne⟩)
          · exact hmm ((needsInteropMismatch_ne_nil_iff m nd).2 hint)
          · exact hh hhash
          · rcases fileHashesChanged_false m.optimized nd h p hp
              with ⟨ndI', hnd', heq⟩
            rw [hnd] at hnd'
            cases hnd'
            exact hne heq

/-- Witness for C1 at a concrete pair of snapshots whose hashes differ. -/
theorem needsReload_iff_spec_witness :
    computeNeedsReload emptyMeta { emptyMeta with hash := "g" } =
        some true ∧
      (true = true ↔
        ((∃ p ∈ emptyMeta.discovered, ∃ ndI,
            alookup ({ emptyMeta with hash := "g" } :
              DepOptimizationMetadata).optimized p.1 = some ndI ∧
            p.2.needsInterop ≠ none ∧
            ndI.needsInterop ≠ p.2.needsInterop)
          ∨ emptyMeta.hash ≠
              ({ emptyMeta with hash := "g" } :
                DepOptimizationMetadata).hash
          ∨ (∃ p ∈ emptyMeta.optimized, ∃ ndI,
            alookup ({ emptyMeta with hash := "g" } :
              DepOptimizationMetadata).optimized p.1 = some ndI ∧
            p.2.fileHash ≠ ndI.fileHash))) :=
  ⟨by decide, needsReload_iff_spec emptyMeta { emptyMeta with hash := "g" }
    true (by decide)⟩

theorem fileHashesChanged_of_eq (opt : List (String × OptimizedDepInfo))
    (nd : DepOptimizationMetadata)
    (hfile : ∀ p ∈ opt, ∃ ndI, alookup nd.optimized p.1 = some ndI ∧
      ndI.fileHash = p.2.fileHash) :
    fileHashesChanged opt nd = some false := by
  induction opt with
  | nil => rfl
  | cons q rest ih =>
      rcases hfile q (List.mem_cons_self q rest) with ⟨ndI, hnd, heq⟩
      unfold fileHashesChanged
      simp only [hnd]
      rw [if_neg (not_ne_iff.2 heq.symm)]
      exact ih (fun p hp => hfile p (List.mem_cons_of_mem q hp))

/-- C7: a rerun whose new metadata is structurally identical to the
current one — same hash, every old optimized id present with the same
fileHash, and the same needsInterop wherever an old discovered id
reappears in the new optimized map — computes needsReload = false, hence
commits without broadcasting a full reload. -/
theorem identical_metadata_no_reload (m nd : DepOptimizationMetadata)
    (hhash : m.hash = nd.hash)
    (hfile : ∀ p ∈ m.optimized, ∃ ndI, alookup nd.optimized p.1 = some ndI ∧
      ndI.fileHash = p.2.fileHash)
    (hinterop : ∀ p ∈ m.discovered, ∀ ndI,
      alookup nd.optimized p.1 = some ndI →
      ndI.needsInterop = p.2.needsInterop) :
    computeNeedsReload m nd = some false := by
  have hmm : needsInteropMismatch m nd = [] := by
    unfold needsInteropMismatch
    rw [List.filterMap_eq_nil_iff]
    intro p hp
    cases hnd : alookup nd.optimized p.1 with
    | none => simp
    | some ndI =>
        simp only []
        rw [if_neg]
        rintro ⟨-, hne⟩
        exact hne (hinterop p hp ndI hnd)
  unfold computeNeedsReload
  rw [if_neg (not_not.2 hmm), if_neg (not_not.2 hhash)]
  exact fileHashesChanged_of_eq m.optimized nd hfile

/-- Witness for C7 at identical concrete empty snapshots. -/
theorem identical_metadata_no_reload_witness :
    emptyMeta.hash = emptyMeta.hash ∧
      computeNeedsReload emptyMeta emptyMeta = some false :=
  ⟨rfl, identical_metadata_no_reload emptyMeta emptyMeta rfl
    (by simp [emptyMeta]) (by simp [emptyMeta])⟩

theorem fileHashesChanged_isSome (opt : List (String × OptimizedDepInfo))
    (nd : DepOptimizationMetadata)
    (h : ∀ p ∈ opt, (alookup nd.optimized p.1).isSome) :
    (fileHashesChanged opt nd).isSome := by
  induction opt with
  | nil => simp [fileHashesChanged]
  | cons q rest ih =>
      have hq := h q (List.mem_cons_self q rest)
      unfold fileHashesChanged
      cases hnd : alookup nd.optimized q.1 with
      | none => rw [hnd] at hq; simp at hq
      | some ndI =>
          simp only [hnd]
          by_cases hc : q.2.fileHash ≠ ndI.fileHash
          · simp [if_pos hc]
          · rw [if_neg hc]
            exact ih (fun p hp => h p (List.mem_cons_of_mem q hp))

theorem fileHashesChanged_eq_none (opt : List (String × OptimizedDepInfo))
    (nd : DepOptimizationMetadata) (h : fileHashesChanged opt nd = none) :
    ∃ p ∈ opt, alookup nd.optimized p.1 = none := by
  induction opt with
  | nil => simp [fileHashesChanged] at h
  | cons q rest ih =>
      unfold fileHashesChanged at h
      cases hnd : alookup nd.optimized q.1 with
      | none => exact ⟨q, List.mem_cons_self q rest, hnd⟩
      | some ndI =>
          simp only [hnd] at h
          by_cases hc : q.2.fileHash ≠ ndI.fileHash
          · simp [if_pos hc] at h
          · rw [if_neg hc] at h
            rcases ih h with ⟨p, hp, w⟩
            exact ⟨p, List.mem_cons_of_mem q hp, w⟩

theorem overwrite_isSome (m : DepOptimizationMetadata)
    (l : List (String × OptimizedDepInfo))
    (h : ∀ p ∈ l, (alookup m.optimized p.1).isSome ∨
      (alookup m.discovered p.1).isSome) :
    (overwriteOptimizedBrowserHashes m l).isSome := by
  induction l with
  | nil => simp [overwriteOptimizedBrowserHashes]
  | cons q rest ih =>
      obtain ⟨dep, info⟩ := q
      have hq := h (dep, info) (List.mem_cons_self (dep, info) rest)
      unfold overwriteOptimizedBrowserHashes
      cases hj : jsOr (alookup m.optimized dep) (alookup m.discovered dep)
        with
      | none =>
          rcases hq with hq | hq
          · cases ho : alookup m.optimized dep with
            | none => rw [ho] at hq; simp at hq
            | some x => simp [jsOr, ho] at hj
          · cases ho : alookup m.optimized dep with
            | some x => simp [jsOr, ho] at hj
            | none =>
                rw [ho] at hj
                simp only [jsOr] at hj
                rw [hj] at hq
                simp at hq
      | some old =>
          have := ih (fun p hp => h p (List.mem_cons_of_mem (dep, info) hp))
          cases hr : overwriteOptimizedBrowserHashes m rest with
          | none => rw [hr] at this; simp at this
          | some rest' => simp [hj, hr]

theorem overwrite_eq_none (m : DepOptimizationMetadata)
    (l : List (String × OptimizedDepInfo))
    (h : overwriteOptimizedBrowserHashes m l = none) :
    ∃ p ∈ l, alookup m.optimized p.1 = none ∧
      alookup m.discovered p.1 = none := by
  induction l with
  | nil => simp [overwriteOptimizedBrowserHashes] at h
  | cons q rest ih =>
      obtain ⟨dep, info⟩ := q
      unfold overwriteOptimizedBrowserHashes at h
      cases hj : jsOr (alookup m.optimized dep) (alookup m.discovered dep)
        with
      | none =>
          cases ho : alookup m.optimized dep with
          | some x => simp [jsOr, ho] at hj
          | none =>
              rw [ho] at hj
              simp only [jsOr] at hj
              exact ⟨(dep, info), List.mem_cons_self (dep, info) rest,
                ho, hj⟩
      | some old =>
          rw [hj] at h
          cases hr : overwriteOptimizedBrowserHashes m rest with
          | none =>
              rcases ih hr with ⟨p, hp, w⟩
              exact ⟨p, List.mem_cons_of_mem (dep, info) hp, w⟩
          | some rest' => rw [hr] at h; simp at h

/-- C9: the rerun executor's unchecked lookups are total exactly under
the bundler's implicit contract.  If the new optimized map contains every
previously optimized id, the needsReload computation completes; if every
new optimized id comes from the old optimized-plus-discovered set, the
no-reload commit completes.  Conversely, whenever either computation
aborts (none, the thrown-TypeError path feeding the catch block), some id
violates the corresponding containment. -/
theorem rerun_access_totality (m nd : DepOptimizationMetadata) :
    ((∀ p ∈ m.optimized, (alookup nd.optimized p.1).isSome) →
      (computeNeedsReload m nd).isSome) ∧
    ((∀ p ∈ nd.optimized, (alookup m.optimized p.1).isSome ∨
        (alookup m.discovered p.1).isSome) →
      (commitProcessing m nd false).isSome) ∧
    (computeNeedsReload m nd = none →
      ∃ p ∈ m.optimized, alookup nd.optimized p.1 = none) ∧
    (commitProcessing m nd false = none →
      ∃ p ∈ nd.optimized, alookup m.optimized p.1 = none ∧
        alookup m.discovered p.1 = none) := by
  refine ⟨?_, ?_, ?_, ?_⟩
  · intro h
    unfold computeNeedsReload
    by_cases hmm : needsInteropMismatch m nd ≠ []
    · simp [if_pos hmm]
    · rw [if_neg hmm]
      by_cases hh : m.hash ≠ nd.hash
      · simp [if_pos hh]
      · rw [if_neg hh]
        exact fileHashesChanged_isSome m.optimized nd h
  · intro h
    unfold commitProcessing
    simp only [if_neg (by simp : ¬(false = true))]
    have := overwrite_isSome m nd.optimized h
    cases hr : overwriteOptimizedBrowserHashes m nd.optimized with
    | none => rw [hr] at this; simp at this
    | some opt' => simp
  · intro h
    unfold computeNeedsReload at h
    by_cases hmm : needsInteropMismatch m nd ≠ []
    · simp [if_pos hmm] at h
    · rw [if_neg hmm] at h
      by_cases hh : m.hash ≠ nd.hash
      · simp [if_pos hh] at h
      · rw [if_neg hh] at h
        exact fileHashesChanged_eq_none m.optimized nd h
  · intro h
    unfold commitProcessing at h
    simp only [if_neg (by simp : ¬(false = true))] at h
    cases hr : overwriteOptimizedBrowserHashes m nd.optimized with
    | none => exact overwrite_eq_none m nd.optimized hr
    | some opt' => rw [hr] at h; simp at h

/-- Witness for C9: the positive directions applied at concrete empty
snapshots. -/
theorem rerun_access_totality_witness :
    (computeNeedsReload emptyMeta emptyMeta).isSome ∧
      (commitProcessing emptyMeta emptyMeta false).isSome :=
  ⟨(rerun_access_totality emptyMeta emptyMeta).1 (by simp [emptyMeta]),
    (rerun_access_totality emptyMeta emptyMeta).2.1 (by simp [emptyMeta])⟩

theorem alookup_isSome_of_mem (l : List (String × OptimizedDepInfo))
    (p : String × OptimizedDepInfo) (hp : p ∈ l) (dep : String)
    (hd : p.1 = dep) : (alookup l dep).isSome := by
  induction l with
  | nil => exact absurd hp (List.not_mem_nil p)
  | cons q rest ih =>
      rcases List.mem_cons.1 hp with h | h
      · subst h; simp [alookup, hd]
      · simp only [alookup]
        by_cases hq : q.1 = dep
        · simp [hq]
        · simp [hq, ih h]

theorem alookup_eq_of_mem_nodup (l : List (String × OptimizedDepInfo))
    (hnd : (l.map Prod.fst).Nodup) (p : String × OptimizedDepInfo)
    (hp : p ∈ l) (dep : String) (hd : p.1 = dep) :
    alookup l dep = some p.2 := by
  induction l with
  | nil => exact absurd hp (List.not_mem_nil p)
  | cons q rest ih =>
      rw [List.map_cons, List.nodup_cons] at hnd
      rcases List.mem_cons.1 hp with h | h
      · subst h
        simp [alookup, hd]
      · have hq : ¬q.1 = dep := by
          intro he
          have hmem : p.1 ∈ rest.map Prod.fst :=
            List.mem_map_of_mem Prod.fst h
          rw [hd, ← he] at hmem
          exact hnd.1 hmem
        simp only [alookup, if_neg hq]
        exact ih hnd.2 h

theorem overwrite_lookup (m : DepOptimizationMetadata)
    (l opt' : List (String × OptimizedDepInfo))
    (h : overwriteOptimizedBrowserHashes m l = some opt')
    (dep : String) (newI : OptimizedDepInfo)
    (hl : alookup opt' dep = some newI) :
    ∃ i old, alookup l dep = some i ∧
      jsOr (alookup m.optimized dep) (alookup m.discovered dep) =
        some old ∧
      newI = { i with browserHash := old.browserHash } := by
  induction l generalizing opt' with
  | nil =>
      simp [overwriteOptimizedBrowserHashes] at h
      subst h
      simp [alookup] at hl
  | cons q rest ih =>
      obtain ⟨d, i⟩ := q
      unfold overwriteOptimizedBrowserHashes at h
      cases hj : jsOr (alookup m.optimized d) (alookup m.discovered d) with
      | none => rw [hj] at h; simp at h
      | some old =>
          rw [hj] at h
          cases hr : overwriteOptimizedBrowserHashes m rest with
          | none => rw [hr] at h; simp at h
          | some rest' =>
              rw [hr] at h
              simp only [Option.some.injEq] at h
              subst h
              by_cases hd : d = dep
              · subst hd
                have hfirst : alookup
                    ((d, { i with browserHash := old.browserHash })
                      :: rest') d =
                    some { i with browserHash := old.browserHash } := by
                  simp [alookup]
                rw [hfirst] at hl
                injection hl with hl
                exact ⟨i, old, by simp [alookup], hj, hl.symm⟩
              · simp only [alookup, if_neg hd] at hl ⊢
                exact ih rest' hr hl

theorem carryOver_lookup_mem (nd : DepOptimizationMetadata)
    (acc l : List (String × OptimizedDepInfo)) (dep : String)
    (v : OptimizedDepInfo)
    (h : alookup (carryOverDiscovered nd acc l) dep = some v) :
    alookup acc dep = some v ∨
      ∃ p ∈ l, p.1 = dep ∧ p.2 = v ∧ alookup nd.optimized dep = none := by
  induction l generalizing acc with
  | nil =>
      rw [carryOverDiscovered] at h
      exact Or.inl h
  | cons q rest ih =>
      rw [carryOverDiscovered] at h
      rcases ih _ h with hacc | ⟨p, hp, w⟩
      · by_cases hs : (alookup nd.optimized q.1).isSome
        · rw [if_pos hs] at hacc
          exact Or.inl hacc
        · rw [if_neg hs] at hacc
          by_cases hd : q.1 = dep
          · rw [hd, alookup_aset_self] at hacc
            cases hacc
            exact Or.inr ⟨q, List.mem_cons_self q rest, hd, rfl,
              Option.not_isSome_iff_eq_none.1 (hd ▸ hs)⟩
          · rw [alookup_aset_other acc q.1 dep q.2
              (fun he => hd he.symm)] at hacc
            exact Or.inl hacc
      · exact Or.inr ⟨p, List.mem_cons_of_mem q hp, w⟩

/-- The dependency entry a snapshot offers for an id: its optimized
binding when present, its discovered binding otherwise (chunk ids are
synthetic and not dependency ids). -/
def depEntry (meta : DepOptimizationMetadata) (dep : String) :
    Option OptimizedDepInfo :=
  jsOr (alookup meta.optimized dep) (alookup meta.discovered dep)

/-- C2: a commit taken with needsReload = false leaves the snapshot-level
browserHash unchanged, and every dependency id present both in the old
snapshot and in the committed one keeps its browserHash, so existing
browser URL query strings stay valid.  The hypotheses are the standing
invariants: the bundler hands back a metadata object with an empty
discovered map, the old discovered keys are unique (a JS object) and the
old optimized and discovered sub-maps are disjoint. -/
theorem commit_no_reload_keeps_browserHash
    (m nd nd' : DepOptimizationMetadata)
    (hc : commitProcessing m nd false = some nd')
    (hfresh : nd.discovered = [])
    (hnodup : (m.discovered.map Prod.fst).Nodup)
    (hdisj : ∀ dep, (alookup m.optimized dep).isSome →
      alookup m.discovered dep = none) :
    nd'.browserHash = m.browserHash ∧
    ∀ dep oldI newI, depEntry m dep = some oldI →
      depEntry nd' dep = some newI →
      newI.browserHash = oldI.browserHash := by
  unfold commitProcessing at hc
  simp only [if_neg (by simp : ¬(false = true))] at hc
  cases hov : overwriteOptimizedBrowserHashes m nd.optimized with
  | none => rw [hov] at hc; simp at hc
  | some opt' =>
      rw [hov] at hc
      simp only [Option.some.injEq] at hc
      subst hc
      refine ⟨rfl, ?_⟩
      intro dep oldI newI hold hnew
      unfold depEntry at hold hnew
      simp only [] at hnew
      cases hoptl : alookup opt' dep with
      | some x =>
          rw [hoptl] at hnew
          simp only [jsOr, Option.some.injEq] at hnew
          subst hnew
          rcases overwrite_lookup m nd.optimized opt' hov dep x hoptl
            with ⟨i, old, hli, hjor, hxeq⟩
          rw [hjor] at hold
          cases hold
          rw [hxeq]
      | none =>
          rw [hoptl] at hnew
          simp only [jsOr] at hnew
          rw [hfresh] at hnew
          rcases carryOver_lookup_mem nd [] m.discovered dep newI hnew
            with habs | ⟨p, hp, hpd, hpv, hnone⟩
          · simp [alookup] at habs
          · cases hmo : alookup m.optimized dep with
            | some z =>
                have hdn := hdisj dep (by rw [hmo]; rfl)
                have := alookup_isSome_of_mem m.discovered p hp dep hpd
                rw [hdn] at this
                simp at this
            | none =>
                rw [hmo] at hold
                simp only [jsOr] at hold
                rw [alookup_eq_of_mem_nodup m.discovered hnodup p hp dep
                  hpd] at hold
                cases hold
                rw [← hpv]

/-- A concrete optimized entry used by witnesses. -/
def sampleInfo : OptimizedDepInfo :=
  { id := "dep-a", file := "deps/dep-a.js", src := some "/proj/a.js",
    browserHash := some "bh0", fileHash := some "fh0",
    needsInterop := some false, processing := none, exportsData := true }

/-- A concrete snapshot with one optimized dependency. -/
def sampleMetaOpt : DepOptimizationMetadata :=
  { hash := "h", browserHash := "B0",
    optimized := [("dep-a", sampleInfo)], chunks := [], discovered := [] }

/-- A concrete bundler result over the same dependency with a fresh
browserHash. -/
def sampleNewMeta : DepOptimizationMetadata :=
  { hash := "h", browserHash := "B1",
    optimized := [("dep-a", { sampleInfo with browserHash := some "bh1" })],
    chunks := [], discovered := [] }

/-- The snapshot the no-reload commit of the two samples produces. -/
def sampleCommitted : DepOptimizationMetadata :=
  { hash := "h", browserHash := "B0",
    optimized := [("dep-a", sampleInfo)], chunks := [], discovered := [] }

/-- Witness for C2 at the concrete sample commit. -/
theorem commit_no_reload_keeps_browserHash_witness :
    commitProcessing sampleMetaOpt sampleNewMeta false =
        some sampleCommitted ∧
      sampleCommitted.browserHash = sampleMetaOpt.browserHash ∧
      sampleInfo.browserHash = sampleInfo.browserHash :=
  ⟨by decide,
    (commit_no_reload_keeps_browserHash sampleMetaOpt sampleNewMeta
      sampleCommitted (by decide) (by decide) (by simp [sampleMetaOpt])
      (fun dep _ => rfl)).1,
    (commit_no_reload_keeps_browserHash sampleMetaOpt sampleNewMeta
      sampleCommitted (by decide) (by decide) (by simp [sampleMetaOpt])
      (fun dep _ => rfl)).2 "dep-a" sampleInfo sampleInfo (by decide)
      (by decide)⟩

/-- C5: registerMissingImport is idempotent per id.  Calling it twice
with identical arguments returns the same entry as a pair with an
unchanged state, so the discovered map does not grow and optimized and
chunks are untouched; and when the id is already optimized or a chunk,
the very first call already returns that entry with no state change. -/
theorem registerMissingImport_idempotent (st : OptimizerState)
    (id resolved : String) (ssr : Bool) :
    registerMissingImport
        (registerMissingImport st id resolved ssr).2 id resolved ssr =
      registerMissingImport st id resolved ssr ∧
    (∀ info, alookup st.metadata.optimized id = some info →
      registerMissingImport st id resolved ssr = (info, st)) ∧
    (∀ info, alookup st.metadata.optimized id = none →
      alookup st.metadata.chunks id = some info →
      registerMissingImport st id resolved ssr = (info, st)) := by
  cases ho : alookup st.metadata.optimized id with
  | some o =>
      have h1 : registerMissingImport st id resolved ssr = (o, st) := by
        unfold registerMissingImport; simp only [ho]
      refine ⟨?_, ?_, ?_⟩
      · rw [h1]; exact h1
      · intro info hinfo; injection hinfo with h2; rw [← h2]; exact h1
      · intro info hno _; exact Option.noConfusion hno
  | none =>
      cases hch : alookup st.metadata.chunks id with
      | some c =>
          have h1 : registerMissingImport st id resolved ssr = (c, st) := by
            unfold registerMissingImport; simp only [ho, hch]
          refine ⟨?_, ?_, ?_⟩
          · rw [h1]; exact h1
          · intro info hinfo; exact Option.noConfusion hinfo
          · intro info _ hinfo
            injection hinfo with h2; rw [← h2]; exact h1
      | none =>
          cases hdi : alookup st.metadata.discovered id with
          | some d =>
              have h1 : registerMissingImport st id resolved ssr =
                  (d, st) := by
                unfold registerMissingImport; simp only [ho, hch, hdi]
              refine ⟨?_, ?_, ?_⟩
              · rw [h1]; exact h1
              · intro info hinfo; exact Option.noConfusion hinfo
              · intro info _ hinfo; exact Option.noConfusion hinfo
          | none =>
              refine ⟨?_, ?_, ?_⟩
              · by_cases hrun : st.scan || st.firstRunCalled
                · simp [registerMissingImport, ho, hch, hdi, hrun,
                    debouncedProcessing, alookup_aset_self]
                · simp [registerMissingImport, ho, hch, hdi, hrun,
                    debouncedProcessing, alookup_aset_self]
              · intro info hinfo; exact Option.noConfusion hinfo
              · intro info _ hinfo; exact Option.noConfusion hinfo

/-- A concrete optimizer state over the one-dependency snapshot. -/
def sampleState : OptimizerState :=
  { metadata := sampleMetaOpt
    newDepsDiscovered := false
    processingQueue := []
    processingToken := 0
    nextToken := 1
    resolvedTokens := []
    currentlyProcessing := false
    firstRunCalled := true
    enqueuedRerun := false
    handlePending := false
    scan := false
    sessionTimestamp := "t0" }

/-- Witness for C5: registering an already optimized id returns its
entry and changes nothing. -/
theorem registerMissingImport_idempotent_witness :
    registerMissingImport sampleState "dep-a" "/proj/a.js" false =
      (sampleInfo, sampleState) :=
  (registerMissingImport_idempotent sampleState "dep-a" "/proj/a.js"
    false).2.1 sampleInfo (by decide)

/-- C10: in dev mode with SSR bundling disabled in the config, the SSR
metadata slot is never assigned, so metadata with ssr = true yields no
snapshot despite the declared return type. -/
theorem ssr_metadata_undefined_in_dev (m ssrMeta : DepOptimizationMetadata) :
    metadataQuery false m (initSsrSlot false false ssrMeta) true = none := by
  simp [metadataQuery, initSsrSlot]

/-- Witness for C10 at concrete snapshots. -/
theorem ssr_metadata_undefined_in_dev_witness :
    metadataQuery false emptyMeta (initSsrSlot false false emptyMeta)
      true = none :=
  ssr_metadata_undefined_in_dev emptyMeta emptyMeta

/-- What a pending rerun relies on and interleaved registerMissingImport
calls never touch: the optimized, chunk, hash and browserHash parts of
the snapshot, the barrier bookkeeping, and every already-present
discovered binding (registration only appends fresh ids). -/
structure RegistrationInvariant (st st' : OptimizerState) : Prop where
  optimized : st'.metadata.optimized = st.metadata.optimized
  chunks : st'.metadata.chunks = st.metadata.chunks
  hash : st'.metadata.hash = st.metadata.hash
  browserHash : st'.metadata.browserHash = st.metadata.browserHash
  queue : st'.processingQueue = st.processingQueue
  token : st'.processingToken = st.processingToken
  next : st'.nextToken = st.nextToken
  resolved : st'.resolvedTokens = st.resolvedTokens
  discoveredMono : ∀ dep v, alookup st.metadata.discovered dep = some v →
    alookup st'.metadata.discovered dep = some v

theorem registrationInvariant_id (st : OptimizerState) :
    RegistrationInvariant st st :=
  ⟨rfl, rfl, rfl, rfl, rfl, rfl, rfl, rfl, fun _ _ h => h⟩

theorem registrationInvariant_trans {a b c : OptimizerState}
    (h1 : RegistrationInvariant a b) (h2 : RegistrationInvariant b c) :
    RegistrationInvariant a c :=
  ⟨h2.optimized.trans h1.optimized, h2.chunks.trans h1.chunks,
    h2.hash.trans h1.hash, h2.browserHash.trans h1.browserHash,
    h2.queue.trans h1.queue, h2.token.trans h1.token,
    h2.next.trans h1.next, h2.resolved.trans h1.resolved,
    fun dep v hv => h2.discoveredMono dep v (h1.discoveredMono dep v hv)⟩

theorem registrationInvariant_rmi (st : OptimizerState)
    (id resolved : String) (ssr : Bool) :
    RegistrationInvariant st (registerMissingImport st id resolved ssr).2 := by
  cases ho : alookup st.metadata.optimized id with
  | some o =>
      have h1 : registerMissingImport st id resolved ssr = (o, st) := by
        unfold registerMissingImport; simp only [ho]
      rw [h1]
      exact registrationInvariant_id st
  | none =>
      cases hch : alookup st.metadata.chunks id with
      | some c =>
          have h1 : registerMissingImport st id resolved ssr = (c, st) := by
            unfold registerMissingImport; simp only [ho, hch]
          rw [h1]
          exact registrationInvariant_id st
      | none =>
          cases hdi : alookup st.metadata.discovered id with
          | some d =>
              have h1 : registerMissingImport st id resolved ssr =
                  (d, st) := by
                unfold registerMissingImport; simp only [ho, hch, hdi]
              rw [h1]
              exact registrationInvariant_id st
          | none =>
              have hmono : ∀ dep v,
                  alookup st.metadata.discovered dep = some v →
                  ∀ w, alookup (aset st.metadata.discovered id w) dep =
                    some v := by
                intro dep v hv w
                by_cases hdep : dep = id
                · rw [hdep] at hv
                  rw [hdi] at hv
                  exact Option.noConfusion hv
                · rw [alookup_aset_other st.metadata.discovered id dep w
                    hdep]
                  exact hv
              by_cases hrun : st.scan || st.firstRunCalled
              · unfold registerMissingImport
                simp only [ho, hch, hdi, hrun, if_true,
                  debouncedProcessing]
                exact ⟨rfl, rfl, rfl, rfl, rfl, rfl, rfl, rfl,
                  fun dep v hv => hmono dep v hv _⟩
              · unfold registerMissingImport
                simp only [ho, hch, hdi, hrun, if_false,
                  Bool.false_eq_true]
                exact ⟨rfl, rfl, rfl, rfl, rfl, rfl, rfl, rfl,
                  fun dep v hv => hmono dep v hv _⟩

theorem registrationInvariant_applyRegistrations (st : OptimizerState)
    (calls : List (String × String × Bool)) :
    RegistrationInvariant st (applyRegistrations st calls) := by
  induction calls generalizing st with
  | nil => exact registrationInvariant_id st
  | cons c rest ih =>
      obtain ⟨id, resolved, ssr⟩ := c
      exact registrationInvariant_trans
        (registrationInvariant_rmi st id resolved ssr)
        (ih (registerMissingImport st id resolved ssr).2)

/-- C3: a rerun whose needsReload computation yields true while new deps
were discovered during the bundling (newDepsDiscovered set) emits exactly
the cancel event — no commit and no full reload — resolves nothing, keeps
the whole barrier queue pending, and leaves _metadata the snapshot it was
before the rerun: same optimized, chunks, hash and browserHash, and every
pre-rerun discovered binding still present (only concurrent registrations
may have appended to it). -/
theorem rerun_cancel_branch (st0 : OptimizerState)
    (midCalls : List (String × String × Bool))
    (nd : DepOptimizationMetadata)
    (hne : ¬st0.metadata.discovered = [])
    (hreload : computeNeedsReload
      (applyRegistrations (rerunPrefixState st0) midCalls).metadata nd =
      some true)
    (hflag :
      (applyRegistrations (rerunPrefixState st0) midCalls).newDepsDiscovered
        = true) :
    (runOptimizerModel st0 midCalls (some nd)).2 = [RunEvent.cancel] ∧
    (runOptimizerModel st0 midCalls (some nd)).1.metadata =
      (applyRegistrations (rerunPrefixState st0) midCalls).metadata ∧
    (runOptimizerModel st0 midCalls (some nd)).1.metadata.optimized =
      st0.metadata.optimized ∧
    (runOptimizerModel st0 midCalls (some nd)).1.metadata.chunks =
      st0.metadata.chunks ∧
    (runOptimizerModel st0 midCalls (some nd)).1.metadata.hash =
      st0.metadata.hash ∧
    (runOptimizerModel st0 midCalls (some nd)).1.metadata.browserHash =
      st0.metadata.browserHash ∧
    (∀ dep v, alookup st0.metadata.discovered dep = some v →
      alookup
        (runOptimizerModel st0 midCalls (some nd)).1.metadata.discovered
        dep = some v) ∧
    (runOptimizerModel st0 midCalls (some nd)).1.resolvedTokens =
      st0.resolvedTokens ∧
    (runOptimizerModel st0 midCalls (some nd)).1.processingQueue =
      st0.processingQueue ++ [st0.processingToken] := by
  have hinv := registrationInvariant_applyRegistrations
    (rerunPrefixState st0) midCalls
  have hrun : runOptimizerModel st0 midCalls (some nd) =
      ({ applyRegistrations (rerunPrefixState st0) midCalls with
          currentlyProcessing := false }, [RunEvent.cancel]) := by
    simp only [runOptimizerModel]
    rw [if_neg hne]
    simp only [hreload]
    rw [if_neg (by decide : ¬(true = false))]
    rw [hflag]
    rw [if_pos rfl]
  rw [hrun]
  exact ⟨rfl, rfl, hinv.optimized, hinv.chunks, hinv.hash,
    hinv.browserHash, fun dep v hv => hinv.discoveredMono dep v hv,
    hinv.resolved, hinv.queue⟩

/-- C4: when the bundler throws, the rerun drains the whole barrier queue
into the resolved tokens (leaving the queue empty), clears the discovered
map to force rediscovery, and does not swap _metadata — optimized,
chunks, hash and browserHash are untouched — and emits no commit, cancel
or reload event. -/
theorem rerun_bundler_failure (st0 : OptimizerState)
    (midCalls : List (String × String × Bool))
    (hne : ¬st0.metadata.discovered = []) :
    (runOptimizerModel st0 midCalls none).2 = [] ∧
    (runOptimizerModel st0 midCalls none).1.processingQueue = [] ∧
    (runOptimizerModel st0 midCalls none).1.resolvedTokens =
      st0.resolvedTokens ++ (st0.processingQueue ++ [st0.processingToken]) ∧
    (runOptimizerModel st0 midCalls none).1.metadata.discovered = [] ∧
    (runOptimizerModel st0 midCalls none).1.metadata.optimized =
      st0.metadata.optimized ∧
    (runOptimizerModel st0 midCalls none).1.metadata.chunks =
      st0.metadata.chunks ∧
    (runOptimizerModel st0 midCalls none).1.metadata.hash =
      st0.metadata.hash ∧
    (runOptimizerModel st0 midCalls none).1.metadata.browserHash =
      st0.metadata.browserHash := by
  have hinv := registrationInvariant_applyRegistrations
    (rerunPrefixState st0) midCalls
  have hrun : runOptimizerModel st0 midCalls none =
      (catchPathState
        (applyRegistrations (rerunPrefixState st0) midCalls), []) := by
    simp only [runOptimizerModel]
    rw [if_neg hne]
  rw [hrun]
  refine ⟨rfl, rfl, ?_, rfl, hinv.optimized, hinv.chunks, hinv.hash,
    hinv.browserHash⟩
  show (applyRegistrations (rerunPrefixState st0) midCalls).resolvedTokens
      ++ (applyRegistrations (rerunPrefixState st0)
        midCalls).processingQueue =
    st0.resolvedTokens ++ (st0.processingQueue ++ [st0.processingToken])
  rw [hinv.resolved, hinv.queue]
  rfl

/-- A concrete discovered-only entry awaiting the current barrier. -/
def sampleDiscInfo : OptimizedDepInfo :=
  { id := "dep-b", file := "deps/dep-b.js", src := some "/proj/b.js",
    browserHash := some "bh-b", fileHash := none, needsInterop := none,
    processing := some 0, exportsData := true }

/-- A concrete state with one optimized and one discovered dependency. -/
def sampleDiscState : OptimizerState :=
  { sampleState with metadata :=
      { sampleMetaOpt with discovered := [("dep-b", sampleDiscInfo)] } }

/-- A concrete bundler result whose hash differs, forcing a reload. -/
def sampleReloadMeta : DepOptimizationMetadata :=
  { hash := "h2", browserHash := "B2",
    optimized :=
      [("dep-a", sampleInfo),
       ("dep-b",
        { sampleDiscInfo with
            fileHash := some "fh-b"
            needsInterop := some false })],
    chunks := [], discovered := [] }

/-- Witness for C3: a concrete cancelled rerun. -/
theorem rerun_cancel_branch_witness :
    (runOptimizerModel sampleDiscState [("dep-c", "/proj/c.js", false)]
        (some sampleReloadMeta)).2 = [RunEvent.cancel] ∧
      (runOptimizerModel sampleDiscState [("dep-c", "/proj/c.js", false)]
        (some sampleReloadMeta)).1.resolvedTokens =
        sampleDiscState.resolvedTokens :=
  ⟨(rerun_cancel_branch sampleDiscState [("dep-c", "/proj/c.js", false)]
      sampleReloadMeta (by decide) (by decide) (by decide)).1,
    (rerun_cancel_branch sampleDiscState [("dep-c", "/proj/c.js", false)]
      sampleReloadMeta (by decide) (by decide)
      (by decide)).2.2.2.2.2.2.2.1⟩

/-- Witness for C4: a concrete failed rerun. -/
theorem rerun_bundler_failure_witness :
    (runOptimizerModel sampleDiscState [] none).1.processingQueue = [] ∧
      (runOptimizerModel sampleDiscState [] none).1.metadata.discovered =
        [] :=
  ⟨(rerun_bundler_failure sampleDiscState [] (by decide)).2.1,
    (rerun_bundler_failure sampleDiscState [] (by decide)).2.2.2.1⟩

/-- A concrete state before the first run, with an empty discovered map
and no pending timer. -/
def freshState : OptimizerState :=
  { sampleState with firstRunCalled := false }

/-- Counterexample to C6 as stated: invoking the rerun on a state whose
discovered map is empty is not a strict no-op — it flips firstRunCalled,
which is observable because it decides whether later
registerMissingImport calls arm the debounced scheduler. -/
theorem run_empty_discovered_not_noop :
    (runOptimizerModel freshState [] none).1 ≠ freshState := by decide

/-- C6 amended: invoking run() when the discovered map is empty performs
no bundling and emits no events — the metadata snapshot, the barrier
queue and the resolved tokens are untouched — but it is not a strict
no-op: it records that a run was called, clears the enqueued-rerun slot,
cancels any pending debounce timer and resets currentlyProcessing. -/
theorem run_empty_discovered_early_return (st0 : OptimizerState)
    (midCalls : List (String × String × Bool))
    (outcome : Option DepOptimizationMetadata)
    (h : st0.metadata.discovered = []) :
    runOptimizerModel st0 midCalls outcome =
      ({ st0 with
          firstRunCalled := true
          enqueuedRerun := false
          handlePending := false
          currentlyProcessing := false }, []) := by
  simp only [runOptimizerModel]
  rw [if_pos h]

/-- Witness for the amended C6 at a concrete empty-discovered state. -/
theorem run_empty_discovered_early_return_witness :
    sampleState.metadata.discovered = [] ∧
      runOptimizerModel sampleState [] none =
        ({ sampleState with
            firstRunCalled := true
            enqueuedRerun := false
            handlePending := false
            currentlyProcessing := false }, []) :=
  ⟨rfl, run_empty_discovered_early_return sampleState [] none rfl⟩

/-- C8: the idle tracker's contract.  delayDepsOptimizerUntil pushes
(id, done) onto the pending stack only when id is not an optimized-dep
file and has not been seen in this reset epoch — otherwise the stack,
the seen set and the waited-on id are untouched; and pending entries are
served LIFO: while something is being waited on nothing is popped, and
as soon as nothing is, the most recently registered entry is popped and
its id becomes the one being waited on (in particular a fresh
registration arriving while idle is awaited immediately). -/
theorem delayUntil_lifo (st : IdleState) (id : String) (done : Nat)
    (server : Bool) :
    ((isOptimizedDepFile id = true ∨ id ∈ st.seenIds) →
      (delayDepsOptimizerUntil st id done server).registeredIds =
        st.registeredIds ∧
      (delayDepsOptimizerUntil st id done server).seenIds = st.seenIds ∧
      (delayDepsOptimizerUntil st id done server).waitingOn =
        st.waitingOn) ∧
    (isOptimizedDepFile id = false → id ∉ st.seenIds →
      ∀ w, st.waitingOn = some w →
      (delayDepsOptimizerUntil st id done server).registeredIds =
        st.registeredIds ++ [(id, done)] ∧
      (delayDepsOptimizerUntil st id done server).seenIds =
        id :: st.seenIds ∧
      (delayDepsOptimizerUntil st id done server).waitingOn = some w) ∧
    (isOptimizedDepFile id = false → id ∉ st.seenIds →
      st.waitingOn = none →
      (delayDepsOptimizerUntil st id done server).registeredIds =
        st.registeredIds ∧
      (delayDepsOptimizerUntil st id done server).waitingOn = some id) ∧
    (∀ l x, st.waitingOn = none → st.registeredIds = l ++ [x] →
      (runOptimizerWhenIdle st).waitingOn = some x.1 ∧
      (runOptimizerWhenIdle st).registeredIds = l) ∧
    (∀ w, st.waitingOn = some w → runOptimizerWhenIdle st = st) := by
  refine ⟨?_, ?_, ?_, ?_, ?_⟩
  · intro h
    have hcond : ¬(¬isOptimizedDepFile id = true ∧ id ∉ st.seenIds) := by
      rcases h with h | h
      · intro hc; exact hc.1 h
      · intro hc; exact hc.2 h
    unfold delayDepsOptimizerUntil
    rw [if_neg hcond]
    by_cases hsv : server = true ∧ ¬st.optimizeDepsEntriesVisited = true
    · rw [if_pos hsv]; exact ⟨rfl, rfl, rfl⟩
    · rw [if_neg hsv]; exact ⟨rfl, rfl, rfl⟩
  · intro hopt hseen w hw
    have hcond : ¬isOptimizedDepFile id = true ∧ id ∉ st.seenIds :=
      ⟨by rw [hopt]; exact Bool.false_ne_true, hseen⟩
    unfold delayDepsOptimizerUntil
    rw [if_pos hcond]
    rw [runOptimizerWhenIdle]
    simp only [hw]
    by_cases hsv : server = true ∧ ¬st.optimizeDepsEntriesVisited = true
    · rw [if_pos hsv]; exact ⟨rfl, rfl, rfl⟩
    · rw [if_neg hsv]; exact ⟨rfl, rfl, rfl⟩
  · intro hopt hseen hw
    have hcond : ¬isOptimizedDepFile id = true ∧ id ∉ st.seenIds :=
      ⟨by rw [hopt]; exact Bool.false_ne_true, hseen⟩
    unfold delayDepsOptimizerUntil
    rw [if_pos hcond]
    rw [runOptimizerWhenIdle]
    simp only [hw, List.getLast?_concat, List.dropLast_concat]
    by_cases hsv : server = true ∧ ¬st.optimizeDepsEntriesVisited = true
    · rw [if_pos hsv]; exact ⟨rfl, rfl⟩
    · rw [if_neg hsv]; exact ⟨rfl, rfl⟩
  · intro l x hw hreg
    rw [runOptimizerWhenIdle]
    simp [hw, hreg, List.getLast?_concat, List.dropLast_concat]
  · intro w hw
    rw [runOptimizerWhenIdle]
    simp only [hw]

/-- A concrete idle-tracker state with two pending registrations and no
id being waited on. -/
def sampleIdle : IdleState :=
  { registeredIds := [("/proj/a.vue", 1), ("/proj/b.vue", 2)]
    seenIds := ["/proj/a.vue", "/proj/b.vue"]
    workersSources := []
    waitingOn := none
    firstRunEnsured := false
    optimizeDepsEntriesVisited := false }

/-- Witness for C8: with two pending entries and nothing being waited
on, the most recently registered one is popped first. -/
theorem delayUntil_lifo_witness :
    (runOptimizerWhenIdle sampleIdle).waitingOn = some "/proj/b.vue" ∧
      (runOptimizerWhenIdle sampleIdle).registeredIds =
        [("/proj/a.vue", 1)] :=
  (delayUntil_lifo sampleIdle "/proj/x.vue" 3 false).2.2.2.1
    [("/proj/a.vue", 1)] ("/proj/b.vue", 2) rfl rfl

end ViteOptimizer
